import Mathlib

/-!
Verification of the change-detection and incremental-sync engine of the
MP-earnings scraper (`src/scraper.py`).

The Python core is shallowly embedded:
* a raw CSV row (a pandas Series viewed through `.get`) is an association
  list from column name to a scalar value;
* Python scalar values relevant to the engine are modelled by `PyVal`
  (`None` or a string; all hashing passes through `str(...)`, so values are
  kept in stringified form);
* the SQLite store is a pair of lists mirroring the `interests` and
  `changes` tables; `SELECT hash FROM interests WHERE hash = ?` +
  `fetchone` is `List.find?`, `INSERT` is append, and
  `UPDATE interests SET last_seen = ? WHERE hash = ?` maps the update over
  every matching row;
* `hashlib.md5(...).hexdigest()` is an external library digest and is
  modelled as an arbitrary function `md5 : String → String` supplied as a
  parameter; every theorem holds for each choice of digest.
-/

namespace Scraper

/-- A Python scalar value as seen by the engine: `None` (what `dict.get` /
`Series.get` return for a missing key) or a string.  Numeric cell contents
only ever reach the identity hash through `str(...)`, so they are carried
already stringified. -/
inductive PyVal where
  | vNone : PyVal
  | vStr : String → PyVal
deriving DecidableEq, Repr

/-- Python `str(v)`: `str(None) = "None"`, strings are unchanged. -/
def pyStr : PyVal → String
  | .vNone => "None"
  | .vStr s => s

/-- Python truthiness of a `PyVal`: `None` and the empty string are falsy. -/
def truthy : PyVal → Bool
  | .vNone => false
  | .vStr s => !(s == "")

/-- Python `a or b`: `a` when `a` is truthy, otherwise `b`. -/
def pyOr (a b : PyVal) : PyVal := if truthy a then a else b

/-- A raw row: mapping from source column name to value, as iterated by
`df.iterrows()`. -/
abbrev Row := List (String × PyVal)

/-- `row.get(k)`: the value stored under `k`, or `None` when the column is
absent. -/
def rowGet (row : Row) (k : String) : PyVal :=
  match row.lookup k with
  | some v => v
  | none => .vNone

/-- `row.get(k, d)`: lookup with an explicit default. -/
def rowGetD (row : Row) (k : String) (d : PyVal) : PyVal :=
  match row.lookup k with
  | some v => v
  | none => d

/-- Models `json.dumps(row.to_dict(), default=str)`; the exact textual
format is never observed by the engine, only retained verbatim. -/
def jsonDumps (row : Row) : String :=
  String.intercalate ", " (row.map (fun kv => kv.1 ++ ": " ++ pyStr kv.2))

/-- The normalized record built by `process_earnings_data` (a Python dict
with a fixed key set; `hash` is filled in afterwards by `compute_hash`). -/
structure Record where
  category : String
  member : PyVal
  party : PyVal
  mnis_id : PyVal
  twfy_id : PyVal
  summary : PyVal
  value : PyVal
  payer_name : PyVal
  received_date : PyVal
  registered : PyVal
  published : PyVal
  raw_json : String
  hash : String
deriving DecidableEq, Repr

/-- The `'|'.join(str(row.get(f, '')) for f in key_fields)` string of
`compute_hash`, evaluated on the record dict: every key field is present in
the dict, so the `''` default is never taken and missing source columns
appear as the value `None`, stringified to `"None"`.  The record's
`category` entry is the plain category string. -/
def hashInput (r : Record) : String :=
  String.intercalate "|"
    [pyStr r.member, r.category, pyStr r.summary, pyStr r.value,
     pyStr r.payer_name, pyStr r.received_date]

/-- `compute_hash(row)`: MD5 hex digest of the joined key fields, the
digest being the supplied `md5` function. -/
def compute_hash (md5 : String → String) (r : Record) : String :=
  md5 (hashInput r)

/-- The record dict literal built for one row inside
`process_earnings_data`, before the `hash` key is added. -/
def normalizeRecord (category : String) (row : Row) : Record :=
  { category := category
    member := rowGet row "member"
    party := rowGet row "party"
    mnis_id := rowGet row "mnis_id"
    twfy_id := rowGet row "twfy_id"
    summary := rowGet row "summary"
    value := rowGet row "value"
    payer_name := pyOr (rowGet row "payer_name") (rowGet row "donor_name")
    received_date := rowGet row "received_date"
    registered := rowGet row "registered"
    published := rowGet row "published"
    raw_json := jsonDumps row
    hash := "" }

/-- One loop iteration of `process_earnings_data`: build the record dict,
then set `record['hash'] = compute_hash(record)`. -/
def normalizeRow (md5 : String → String) (category : String) (row : Row) : Record :=
  let record := normalizeRecord category row
  { record with hash := compute_hash md5 record }

/-- `process_earnings_data(df, category)`: one normalized record per row of
the dataframe, in row order. -/
def process_earnings_data (md5 : String → String) (df : List Row)
    (category : String) : List Record :=
  df.map (normalizeRow md5 category)

/-- One stored row of the `interests` table. -/
structure Interest where
  hash : String
  category : String
  member : PyVal
  party : PyVal
  mnis_id : PyVal
  twfy_id : PyVal
  summary : PyVal
  value : PyVal
  payer_name : PyVal
  received_date : PyVal
  registered : PyVal
  published : PyVal
  raw_json : String
  first_seen : String
  last_seen : String
deriving DecidableEq, Repr

/-- One stored row of the `changes` table (the autoincrement id is the list
position; `old_value` is never supplied by the INSERT and stays NULL). -/
structure Change where
  interest_hash : String
  change_type : String
  detected_at : String
  old_value : Option String
  new_value : PyVal
  member : PyVal
  category : String
deriving DecidableEq, Repr

/-- The persisted store: the two tables created by `init_database`. -/
structure DB where
  interests : List Interest
  changes : List Change
deriving DecidableEq, Repr

/-- The store right after `init_database` on a fresh file: both tables
empty. -/
def emptyDB : DB := ⟨[], []⟩

/-- The `stats` dict returned by `sync_to_database`. -/
structure Stats where
  new : Nat
  total : Nat
deriving DecidableEq, Repr

/-- The `interests` row inserted for an unseen record:
`first_seen = last_seen = now`. -/
def mkInterest (r : Record) (now : String) : Interest :=
  { hash := r.hash, category := r.category, member := r.member,
    party := r.party, mnis_id := r.mnis_id, twfy_id := r.twfy_id,
    summary := r.summary, value := r.value, payer_name := r.payer_name,
    received_date := r.received_date, registered := r.registered,
    published := r.published, raw_json := r.raw_json,
    first_seen := now, last_seen := now }

/-- The `changes` row inserted alongside it: type `'new'`, detected at the
shared run timestamp, carrying summary, member, category and hash. -/
def mkChange (r : Record) (now : String) : Change :=
  { interest_hash := r.hash, change_type := "new", detected_at := now,
    old_value := none, new_value := r.summary, member := r.member,
    category := r.category }

/-- The per-record body of the `sync_to_database` loop: bump `total`, look
the hash up, and either insert the interest/change pair and bump `new`, or
refresh `last_seen` of the matching rows. -/
def syncRecord (now : String) (st : DB × Stats) (r : Record) : DB × Stats :=
  let db := st.1
  let stats : Stats := { st.2 with total := st.2.total + 1 }
  match db.interests.find? (fun i => i.hash == r.hash) with
  | none =>
      ({ interests := db.interests ++ [mkInterest r now],
         changes := db.changes ++ [mkChange r now] },
       { stats with new := stats.new + 1 })
  | some _ =>
      ({ db with
          interests := db.interests.map
            (fun i => if i.hash == r.hash then { i with last_seen := now } else i) },
       stats)

/-- `sync_to_database(data, conn)`: `now` is the single
`datetime.now().isoformat()` captured once per run; the stats start at
`{'new': 0, 'total': 0}`; every category's rows are normalized and folded
through `syncRecord` in order. -/
def sync_to_database (md5 : String → String) (now : String)
    (data : List (String × List Row)) (db : DB) : DB × Stats :=
  data.foldl
    (fun st cd => (process_earnings_data md5 cd.2 cd.1).foldl (syncRecord now) st)
    (db, ⟨0, 0⟩)

/-- The loop body of `fetch_all_data`: `df = fetch_csv(key)`, then
`if not df.empty: data[key] = df`. -/
def fetchStep (fetch : String → List Row) (data : List (String × List Row))
    (key : String) : List (String × List Row) :=
  let df := fetch key
  if df.isEmpty then data else data ++ [(key, df)]

/-- `fetch_all_data()`: iterate the category keys, fetch each one
(`fetch key` is what `fetch_csv` returned — the empty dataframe on a fetch
error), and keep only the non-empty dataframes, in key order. -/
def fetch_all_data (keys : List String) (fetch : String → List Row) :
    List (String × List Row) :=
  keys.foldl (fetchStep fetch) []

/-- A sequence of sync runs, each with its own captured timestamp and
fetched data, folded over the store. -/
def runSyncs (md5 : String → String)
    (runs : List (String × List (String × List Row))) (db : DB) : DB :=
  runs.foldl (fun db run => (sync_to_database md5 run.1 run.2 db).1) db

/-- An interest row with its recency marker blanked: two rows agree on
everything except `last_seen` iff their `stripLastSeen` images are equal. -/
def stripLastSeen (i : Interest) : Interest := { i with last_seen := "" }

/-- Folding a flat list of normalized records through the per-record loop
body. -/
def syncAll (now : String) (st : DB × Stats) (rs : List Record) : DB × Stats :=
  rs.foldl (syncRecord now) st

/-- All normalized records of a run's data, in processing order. -/
def allRecords (md5 : String → String) (data : List (String × List Row)) :
    List Record :=
  data.flatMap (fun cd => process_earnings_data md5 cd.2 cd.1)

/-- The `last_seen` refresh applied by the UPDATE statement to one stored
row. -/
def touch (now h' : String) (i : Interest) : Interest :=
  if i.hash == h' then { i with last_seen := now } else i

/-- Concrete sample row used to instantiate theorems (the §8 scenario row
of the spec). -/
def rowA : Row :=
  [("member", PyVal.vStr "A"), ("summary", PyVal.vStr "gift"),
   ("value", PyVal.vStr "100"), ("payer_name", PyVal.vStr "X"),
   ("received_date", PyVal.vStr "2024-01-01")]

/-- A row missing `value`, `payer_name` and `donor_name`. -/
def rowM : Row :=
  [("member", PyVal.vStr "A"), ("summary", PyVal.vStr "gift"),
   ("received_date", PyVal.vStr "2024-01-01")]

/-- A row whose primary payer-name column is present but empty. -/
def rowP : Row :=
  [("payer_name", PyVal.vStr ""), ("donor_name", PyVal.vStr "D")]

/-- `rowA` normalized under the `donations` category, with the identity
digest instantiated to `id`. -/
def recA : Record := normalizeRow id "donations" rowA

/-- `recA` with a different non-key field (`party`). -/
def recB : Record := { recA with party := PyVal.vStr "P" }

/-- The store after one run over `rowA`. -/
def dbA : DB := (sync_to_database id "t1" [("donations", [rowA])] emptyDB).1

/-- A single-run history over `rowA`. -/
def runs1 : List (String × List (String × List Row)) :=
  [("t1", [("donations", [rowA])])]

/-- The change event written by that run. -/
def chA : Change := mkChange recA "t1"

/-- A concrete fetch result: `donations` has one row, every other category
fetches empty. -/
def fetchW : String → List Row := fun k => if k == "donations" then [rowA] else []

end Scraper

namespace Scraper

lemma touch_hash (now h' : String) (i : Interest) : (touch now h' i).hash = i.hash := by
  unfold touch; split <;> rfl

lemma touch_first_seen (now h' : String) (i : Interest) :
    (touch now h' i).first_seen = i.first_seen := by
  unfold touch; split <;> rfl

lemma touch_strip (now h' : String) (i : Interest) :
    stripLastSeen (touch now h' i) = stripLastSeen i := by
  unfold touch; split <;> rfl

lemma find?_hash_eq_none_iff (l : List Interest) (h' : String) :
    l.find? (fun i => i.hash == h') = none ↔ ∀ i ∈ l, i.hash ≠ h' := by
  simp [List.find?_eq_none]

lemma find?_hash_some (l : List Interest) (h' : String)
    (h : ∃ i ∈ l, i.hash = h') : ∃ j, l.find? (fun i => i.hash == h') = some j := by
  rw [← Option.isSome_iff_exists, List.find?_isSome]
  obtain ⟨i, hi, hh⟩ := h
  exact ⟨i, hi, by simp [hh]⟩

lemma syncRecord_absent (now : String) (st : DB × Stats) (r : Record)
    (h : st.1.interests.find? (fun i => i.hash == r.hash) = none) :
    syncRecord now st r =
      (⟨st.1.interests ++ [mkInterest r now], st.1.changes ++ [mkChange r now]⟩,
       ⟨st.2.new + 1, st.2.total + 1⟩) := by
  simp [syncRecord, h]

lemma syncRecord_present (now : String) (st : DB × Stats) (r : Record)
    (j : Interest)
    (h : st.1.interests.find? (fun i => i.hash == r.hash) = some j) :
    syncRecord now st r =
      (⟨st.1.interests.map (touch now r.hash), st.1.changes⟩,
       ⟨st.2.new, st.2.total + 1⟩) := by
  simp [syncRecord, h, touch]

lemma syncRecord_total (now : String) (st : DB × Stats) (r : Record) :
    (syncRecord now st r).2.total = st.2.total + 1 := by
  unfold syncRecord
  cases h : st.1.interests.find? (fun i => i.hash == r.hash) <;> simp [h]

lemma syncRecord_persist (now : String) (st : DB × Stats) (r : Record) :
    ∀ i ∈ st.1.interests, ∃ j ∈ (syncRecord now st r).1.interests,
      j.hash = i.hash ∧ j.first_seen = i.first_seen := by
  intro i hi
  cases h : st.1.interests.find? (fun i => i.hash == r.hash) with
  | none =>
      rw [syncRecord_absent now st r h]
      exact ⟨i, List.mem_append_left _ hi, rfl, rfl⟩
  | some j =>
      rw [syncRecord_present now st r j h]
      exact ⟨touch now r.hash i, List.mem_map_of_mem _ hi,
        touch_hash now r.hash i, touch_first_seen now r.hash i⟩

lemma syncRecord_self_present (now : String) (st : DB × Stats) (r : Record) :
    ∃ j ∈ (syncRecord now st r).1.interests, j.hash = r.hash := by
  cases h : st.1.interests.find? (fun i => i.hash == r.hash) with
  | none =>
      rw [syncRecord_absent now st r h]
      exact ⟨mkInterest r now, List.mem_append_right _ (List.mem_singleton.mpr rfl), rfl⟩
  | some j =>
      have hj : j ∈ st.1.interests ∧ j.hash = r.hash := by
        have h1 := List.mem_of_find?_eq_some h
        have h2 := List.find?_some h
        exact ⟨h1, by simpa using h2⟩
      obtain ⟨j', hj', hh, _⟩ := syncRecord_persist now st r j hj.1
      exact ⟨j', hj', hh.trans hj.2⟩

lemma map_touch_strip (now h' : String) (l : List Interest) :
    (l.map (touch now h')).map stripLastSeen = l.map stripLastSeen := by
  rw [List.map_map]
  exact List.map_congr_left (fun i _ => touch_strip now h' i)

lemma map_touch_hash (now h' : String) (l : List Interest) :
    (l.map (touch now h')).map Interest.hash = l.map Interest.hash := by
  rw [List.map_map]
  exact List.map_congr_left (fun i _ => touch_hash now h' i)

lemma foldl_flatMap {α β γ : Type} (f : α → List β) (g : γ → β → γ) :
    ∀ (l : List α) (init : γ),
      l.foldl (fun acc a => (f a).foldl g acc) init = (l.flatMap f).foldl g init
  | [], _ => rfl
  | a :: l, init => by
      rw [List.flatMap_cons, List.foldl_append]
      exact foldl_flatMap f g l ((f a).foldl g init)

lemma sync_to_database_eq (md5 : String → String) (now : String)
    (data : List (String × List Row)) (db : DB) :
    sync_to_database md5 now data db = syncAll now (db, ⟨0, 0⟩) (allRecords md5 data) := by
  unfold sync_to_database syncAll allRecords
  exact foldl_flatMap _ _ data _

lemma syncAll_total (now : String) :
    ∀ (rs : List Record) (st : DB × Stats),
      (syncAll now st rs).2.total = st.2.total + rs.length
  | [], st => by simp [syncAll]
  | r :: rs, st => by
      have ih := syncAll_total now rs (syncRecord now st r)
      have hstep := syncRecord_total now st r
      simp only [syncAll, List.foldl_cons, List.length_cons] at ih ⊢
      rw [ih, hstep]
      omega

lemma syncAll_persist (now : String) :
    ∀ (rs : List Record) (st : DB × Stats),
      ∀ i ∈ st.1.interests, ∃ j ∈ (syncAll now st rs).1.interests,
        j.hash = i.hash ∧ j.first_seen = i.first_seen
  | [], _ => fun i hi => ⟨i, hi, rfl, rfl⟩
  | r :: rs, st => fun i hi => by
      obtain ⟨j, hj, hh, hf⟩ := syncRecord_persist now st r i hi
      obtain ⟨k, hk, kh, kf⟩ := syncAll_persist now rs (syncRecord now st r) j hj
      exact ⟨k, hk, kh.trans hh, kf.trans hf⟩

lemma syncAll_all_present (now : String) :
    ∀ (rs : List Record) (st : DB × Stats),
      ∀ r ∈ rs, ∃ j ∈ (syncAll now st rs).1.interests, j.hash = r.hash
  | [], _ => by simp
  | r :: rs, st => by
      intro r' hr'
      rcases List.mem_cons.mp hr' with h | h
      · subst h
        obtain ⟨j, hj, hh⟩ := syncRecord_self_present now st r'
        obtain ⟨k, hk, kh, _⟩ := syncAll_persist now rs (syncRecord now st r') j hj
        exact ⟨k, hk, kh.trans hh⟩
      · exact syncAll_all_present now rs (syncRecord now st r) r' h

lemma syncAll_of_all_hashes_present (now : String) :
    ∀ (rs : List Record) (st : DB × Stats),
      (∀ r ∈ rs, ∃ i ∈ st.1.interests, i.hash = r.hash) →
      (syncAll now st rs).1.changes = st.1.changes ∧
      (syncAll now st rs).1.interests.map stripLastSeen
        = st.1.interests.map stripLastSeen ∧
      (syncAll now st rs).2.new = st.2.new
  | [], _ => fun _ => ⟨rfl, rfl, rfl⟩
  | r :: rs, st => fun hall => by
      obtain ⟨j, hj⟩ := find?_hash_some st.1.interests r.hash (hall r (List.mem_cons_self r rs))
      have hstep := syncRecord_present now st r j hj
      have htail : ∀ r' ∈ rs, ∃ i ∈ (syncRecord now st r).1.interests, i.hash = r'.hash := by
        intro r' hr'
        obtain ⟨i, hi, hh⟩ := hall r' (List.mem_cons_of_mem r hr')
        obtain ⟨k, hk, kh, _⟩ := syncRecord_persist now st r i hi
        exact ⟨k, hk, kh.trans hh⟩
      obtain ⟨hc, hm, hn⟩ := syncAll_of_all_hashes_present now rs (syncRecord now st r) htail
      have hgoal : syncAll now st (r :: rs) = syncAll now (syncRecord now st r) rs := rfl
      refine ⟨?_, ?_, ?_⟩
      · rw [hgoal, hc, hstep]
      · rw [hgoal, hm, hstep]
        exact map_touch_strip now r.hash st.1.interests
      · rw [hgoal, hn, hstep]

lemma syncRecord_nodup (now : String) (st : DB × Stats) (r : Record)
    (h : (st.1.interests.map Interest.hash).Nodup) :
    ((syncRecord now st r).1.interests.map Interest.hash).Nodup := by
  cases hf : st.1.interests.find? (fun i => i.hash == r.hash) with
  | none =>
      rw [syncRecord_absent now st r hf]
      have habs : r.hash ∉ st.1.interests.map Interest.hash := by
        rw [find?_hash_eq_none_iff] at hf
        simp only [List.mem_map]
        rintro ⟨i, hi, hh⟩
        exact hf i hi hh
      have : (st.1.interests ++ [mkInterest r now]).map Interest.hash
          = st.1.interests.map Interest.hash ++ [r.hash] := by
        simp [mkInterest]
      rw [this, List.nodup_append_comm]
      exact List.nodup_cons.mpr ⟨habs, h⟩
  | some j =>
      rw [syncRecord_present now st r j hf]
      have := map_touch_hash now r.hash st.1.interests
      simpa [this] using h

lemma syncAll_nodup (now : String) :
    ∀ (rs : List Record) (st : DB × Stats),
      (st.1.interests.map Interest.hash).Nodup →
      ((syncAll now st rs).1.interests.map Interest.hash).Nodup
  | [], _ => fun h => h
  | r :: rs, st => fun h =>
      syncAll_nodup now rs (syncRecord now st r) (syncRecord_nodup now st r h)

lemma sync_to_database_nodup (md5 : String → String) (now : String)
    (data : List (String × List Row)) (db : DB)
    (h : (db.interests.map Interest.hash).Nodup) :
    (((sync_to_database md5 now data db).1.interests).map Interest.hash).Nodup := by
  rw [sync_to_database_eq]
  exact syncAll_nodup now (allRecords md5 data) (db, ⟨0, 0⟩) h

lemma runSyncs_nodup (md5 : String → String) :
    ∀ (runs : List (String × List (String × List Row))) (db : DB),
      (db.interests.map Interest.hash).Nodup →
      ((runSyncs md5 runs db).interests.map Interest.hash).Nodup
  | [], _ => fun h => h
  | run :: runs, db => fun h =>
      runSyncs_nodup md5 runs (sync_to_database md5 run.1 run.2 db).1
        (sync_to_database_nodup md5 run.1 run.2 db h)

lemma syncRecord_audit (now : String) (st : DB × Stats) (r : Record)
    (h : (st.1.changes.filter (fun c => c.change_type == "new")).length
      = st.1.interests.length) :
    ((syncRecord now st r).1.changes.filter (fun c => c.change_type == "new")).length
      = (syncRecord now st r).1.interests.length := by
  cases hf : st.1.interests.find? (fun i => i.hash == r.hash) with
  | none =>
      rw [syncRecord_absent now st r hf]
      simp [List.filter_append, mkChange, h]
  | some j =>
      rw [syncRecord_present now st r j hf]
      simpa using h

lemma syncAll_audit (now : String) :
    ∀ (rs : List Record) (st : DB × Stats),
      (st.1.changes.filter (fun c => c.change_type == "new")).length
        = st.1.interests.length →
      ((syncAll now st rs).1.changes.filter (fun c => c.change_type == "new")).length
        = (syncAll now st rs).1.interests.length
  | [], _ => fun h => h
  | r :: rs, st => fun h =>
      syncAll_audit now rs (syncRecord now st r) (syncRecord_audit now st r h)

lemma runSyncs_audit (md5 : String → String) :
    ∀ (runs : List (String × List (String × List Row))) (db : DB),
      (db.changes.filter (fun c => c.change_type == "new")).length
        = db.interests.length →
      ((runSyncs md5 runs db).changes.filter (fun c => c.change_type == "new")).length
        = (runSyncs md5 runs db).interests.length
  | [], _ => fun h => h
  | run :: runs, db => fun h => by
      refine runSyncs_audit md5 runs (sync_to_database md5 run.1 run.2 db).1 ?_
      rw [sync_to_database_eq]
      exact syncAll_audit run.1 (allRecords md5 run.2) (db, ⟨0, 0⟩) h

/-- Every change event can be matched to a stored interest carrying the
same hash whose `first_seen` equals the event's detection time. -/
def changesMatched (db : DB) : Prop :=
  ∀ c ∈ db.changes, ∃ i ∈ db.interests,
    i.hash = c.interest_hash ∧ i.first_seen = c.detected_at

lemma syncRecord_matched (now : String) (st : DB × Stats) (r : Record)
    (h : changesMatched st.1) : changesMatched (syncRecord now st r).1 := by
  cases hf : st.1.interests.find? (fun i => i.hash == r.hash) with
  | none =>
      rw [syncRecord_absent now st r hf]
      intro c hc
      rcases List.mem_append.mp hc with hc | hc
      · obtain ⟨i, hi, hh, hfs⟩ := h c hc
        exact ⟨i, List.mem_append_left _ hi, hh, hfs⟩
      · have hc' : c = mkChange r now := List.mem_singleton.mp hc
        subst hc'
        exact ⟨mkInterest r now,
          List.mem_append_right _ (List.mem_singleton.mpr rfl), rfl, rfl⟩
  | some j =>
      rw [syncRecord_present now st r j hf]
      intro c hc
      obtain ⟨i, hi, hh, hfs⟩ := h c hc
      exact ⟨touch now r.hash i, List.mem_map_of_mem _ hi,
        (touch_hash now r.hash i).trans hh, (touch_first_seen now r.hash i).trans hfs⟩

lemma syncAll_matched (now : String) :
    ∀ (rs : List Record) (st : DB × Stats),
      changesMatched st.1 → changesMatched (syncAll now st rs).1
  | [], _ => fun h => h
  | r :: rs, st => fun h =>
      syncAll_matched now rs (syncRecord now st r) (syncRecord_matched now st r h)

lemma runSyncs_matched (md5 : String → String) :
    ∀ (runs : List (String × List (String × List Row))) (db : DB),
      changesMatched db → changesMatched (runSyncs md5 runs db)
  | [], _ => fun h => h
  | run :: runs, db => fun h => by
      refine runSyncs_matched md5 runs (sync_to_database md5 run.1 run.2 db).1 ?_
      rw [sync_to_database_eq]
      exact syncAll_matched run.1 (allRecords md5 run.2) (db, ⟨0, 0⟩) h

lemma allRecords_length (md5 : String → String) (data : List (String × List Row)) :
    (allRecords md5 data).length = (data.map (fun cd => cd.2.length)).sum := by
  unfold allRecords process_earnings_data
  rw [List.length_flatMap]
  congr 1
  exact List.map_congr_left (fun cd _ => List.length_map _ _)

lemma fetch_foldl_skip (fetch : String → List Row) (c : String) (hc : fetch c = []) :
    ∀ (keys : List String) (acc : List (String × List Row)),
      keys.foldl (fetchStep fetch) acc
        = (keys.filter (fun k => !(k == c))).foldl (fetchStep fetch) acc
  | [], _ => rfl
  | k :: keys, acc => by
      by_cases hk : k = c
      · subst hk
        have hstep : fetchStep fetch acc k = acc := by simp [fetchStep, hc]
        simp only [List.foldl_cons, List.filter_cons, beq_self_eq_true,
          Bool.not_true, hstep]
        exact fetch_foldl_skip fetch k hc keys acc
      · have hkeep : (!(k == c)) = true := by simp [hk]
        simp only [List.foldl_cons, List.filter_cons, hkeep]
        exact fetch_foldl_skip fetch c hc keys (fetchStep fetch acc k)

/-- C2: running `sync_to_database` a second time with identical input data
against the store produced by the first run returns `new == 0`, leaves the
number of stored interest rows and the change log unchanged, and alters
stored rows only in their `last_seen` column. -/
theorem sync_idempotent (md5 : String → String) (now1 now2 : String)
    (data : List (String × List Row)) (db : DB) :
    (sync_to_database md5 now2 data (sync_to_database md5 now1 data db).1).2.new = 0 ∧
    (sync_to_database md5 now2 data (sync_to_database md5 now1 data db).1).1.interests.length
      = (sync_to_database md5 now1 data db).1.interests.length ∧
    (sync_to_database md5 now2 data (sync_to_database md5 now1 data db).1).1.changes
      = (sync_to_database md5 now1 data db).1.changes ∧
    (sync_to_database md5 now2 data (sync_to_database md5 now1 data db).1).1.interests.map stripLastSeen
      = (sync_to_database md5 now1 data db).1.interests.map stripLastSeen := by
  have hall : ∀ r ∈ allRecords md5 data,
      ∃ i ∈ (sync_to_database md5 now1 data db).1.interests, i.hash = r.hash := by
    intro r hr
    rw [sync_to_database_eq]
    exact syncAll_all_present now1 (allRecords md5 data) (db, ⟨0, 0⟩) r hr
  obtain ⟨hc, hm, hn⟩ := syncAll_of_all_hashes_present now2 (allRecords md5 data)
    ((sync_to_database md5 now1 data db).1, ⟨0, 0⟩) hall
  rw [sync_to_database_eq md5 now2 data (sync_to_database md5 now1 data db).1]
  refine ⟨hn, ?_, hc, hm⟩
  have := congrArg List.length hm
  simpa using this

/-- C3: after any sequence of sync runs starting from the freshly
initialized store, no two stored interest rows share an identity hash. -/
theorem stored_hashes_unique (md5 : String → String)
    (runs : List (String × List (String × List Row))) :
    (((runSyncs md5 runs emptyDB).interests).map Interest.hash).Nodup :=
  runSyncs_nodup md5 runs emptyDB (by simp [emptyDB])

/-- C4: after any sequence of sync runs starting from the freshly
initialized store, the number of change events of type `"new"` equals the
number of distinct identity hashes stored in the interests table — exactly
one event per first insertion, never one on a recency refresh. -/
theorem audit_completeness (md5 : String → String)
    (runs : List (String × List (String × List Row))) :
    ((runSyncs md5 runs emptyDB).changes.filter (fun c => c.change_type == "new")).length
      = (((runSyncs md5 runs emptyDB).interests.map Interest.hash).dedup).length := by
  have hnd : (((runSyncs md5 runs emptyDB).interests).map Interest.hash).Nodup :=
    runSyncs_nodup md5 runs emptyDB (by simp [emptyDB])
  rw [hnd.dedup, List.length_map]
  exact runSyncs_audit md5 runs emptyDB (by simp [emptyDB])

/-- C10: the change event and the interest row inserted in the same loop
iteration share the single run timestamp (`detected_at` = `first_seen` =
`last_seen`) and the same hash; durably, every stored change event is
matched by a stored interest row with the same hash whose `first_seen`
equals the event's `detected_at`. -/
theorem change_insertion_timestamps (md5 : String → String)
    (runs : List (String × List (String × List Row))) (r : Record) (now : String) :
    ((mkChange r now).detected_at = (mkInterest r now).first_seen ∧
     (mkInterest r now).last_seen = (mkInterest r now).first_seen ∧
     (mkChange r now).interest_hash = (mkInterest r now).hash) ∧
    (∀ c ∈ (runSyncs md5 runs emptyDB).changes,
      ∃ i ∈ (runSyncs md5 runs emptyDB).interests,
        i.hash = c.interest_hash ∧ i.first_seen = c.detected_at) :=
  ⟨⟨rfl, rfl, rfl⟩,
   runSyncs_matched md5 runs emptyDB (fun c hc => absurd hc (List.not_mem_nil c))⟩

/-- Witness for C10 at the concrete one-run history `runs1`. -/
theorem change_insertion_timestamps_witness :
    ∃ i ∈ (runSyncs id runs1 emptyDB).interests,
      i.hash = chA.interest_hash ∧ i.first_seen = chA.detected_at :=
  (change_insertion_timestamps id runs1 recA "t1").2 chA (by decide)

/-- C1: per processed record, if its hash is absent from the store the loop
inserts one interest row with `first_seen = last_seen` equal to the shared
run timestamp, appends exactly one change event of type `"new"` carrying
the record's summary, member, category and hash, and increments `new`; if
the hash is present it only refreshes `last_seen` of the matching row and
appends nothing; `total` is incremented in both branches, and the run's
returned `total` counts every row of the input exactly once. -/
theorem sync_per_row_spec (md5 : String → String) (now : String)
    (data : List (String × List Row)) (db : DB) (st : DB × Stats) (r : Record) :
    ((∀ i ∈ st.1.interests, i.hash ≠ r.hash) →
      (syncRecord now st r).1.interests = st.1.interests ++ [mkInterest r now] ∧
      (mkInterest r now).first_seen = now ∧
      (mkInterest r now).last_seen = now ∧
      (syncRecord now st r).1.changes = st.1.changes ++ [mkChange r now] ∧
      (mkChange r now).change_type = "new" ∧
      (mkChange r now).new_value = r.summary ∧
      (mkChange r now).member = r.member ∧
      (mkChange r now).category = r.category ∧
      (mkChange r now).interest_hash = r.hash ∧
      (syncRecord now st r).2.new = st.2.new + 1) ∧
    ((∃ i ∈ st.1.interests, i.hash = r.hash) →
      (syncRecord now st r).1.changes = st.1.changes ∧
      (syncRecord now st r).2.new = st.2.new ∧
      (syncRecord now st r).1.interests.map stripLastSeen
        = st.1.interests.map stripLastSeen ∧
      (∀ j ∈ (syncRecord now st r).1.interests, j.hash = r.hash → j.last_seen = now) ∧
      (∀ j ∈ (syncRecord now st r).1.interests, j.hash ≠ r.hash → j ∈ st.1.interests)) ∧
    (syncRecord now st r).2.total = st.2.total + 1 ∧
    (sync_to_database md5 now data db).2.total
      = (data.map (fun cd => cd.2.length)).sum := by
  refine ⟨?_, ?_, syncRecord_total now st r, ?_⟩
  · intro habs
    have hf : st.1.interests.find? (fun i => i.hash == r.hash) = none :=
      (find?_hash_eq_none_iff st.1.interests r.hash).mpr habs
    rw [syncRecord_absent now st r hf]
    exact ⟨rfl, rfl, rfl, rfl, rfl, rfl, rfl, rfl, rfl, rfl⟩
  · intro hpres
    obtain ⟨j, hf⟩ := find?_hash_some st.1.interests r.hash hpres
    rw [syncRecord_present now st r j hf]
    refine ⟨rfl, rfl, map_touch_strip now r.hash st.1.interests, ?_, ?_⟩
    · intro k hk hkh
      obtain ⟨i, hi, hik⟩ := List.mem_map.mp hk
      by_cases hih : i.hash = r.hash
      · rw [← hik]
        simp [touch, hih]
      · exfalso
        apply hih
        rw [← hik] at hkh
        rwa [touch_hash] at hkh
    · intro k hk hkh
      obtain ⟨i, hi, hik⟩ := List.mem_map.mp hk
      by_cases hih : i.hash = r.hash
      · exfalso
        apply hkh
        rw [← hik, touch_hash, hih]
      · have : touch now r.hash i = i := by simp [touch, hih]
        rw [← hik, this]
        exact hi
  · rw [sync_to_database_eq]
    rw [syncAll_total now (allRecords md5 data) (db, ⟨0, 0⟩)]
    rw [allRecords_length]
    simp

/-- Witness for C1: the absent branch at the empty store and the present
branch at the store already holding `recA`. -/
theorem sync_per_row_spec_witness :
    (∀ i ∈ (emptyDB, (⟨0, 0⟩ : Stats)).1.interests, i.hash ≠ recA.hash) ∧
    (∃ i ∈ (dbA, (⟨0, 0⟩ : Stats)).1.interests, i.hash = recA.hash) ∧
    (syncRecord "t1" (emptyDB, ⟨0, 0⟩) recA).2.new = 0 + 1 ∧
    (syncRecord "t2" (dbA, ⟨0, 0⟩) recA).2.new = 0 := by
  have h1 : ∀ i ∈ (emptyDB, (⟨0, 0⟩ : Stats)).1.interests, i.hash ≠ recA.hash := by
    intro i hi
    exact absurd hi (List.not_mem_nil i)
  have h2 : ∃ i ∈ (dbA, (⟨0, 0⟩ : Stats)).1.interests, i.hash = recA.hash := by decide
  refine ⟨h1, h2, ?_, ?_⟩
  · obtain ⟨_, _, _, _, _, _, _, _, _, hnew⟩ :=
      (sync_per_row_spec id "t1" [] emptyDB (emptyDB, ⟨0, 0⟩) recA).1 h1
    exact hnew
  · obtain ⟨_, hnew, _, _, _⟩ :=
      (sync_per_row_spec id "t2" [] emptyDB (dbA, ⟨0, 0⟩) recA).2.1 h2
    exact hnew

/-- C5: the identity hash is deterministic — normalizing the same raw row
under the same category twice yields the same hash, and `compute_hash` is a
pure function of the six key fields member, category, summary, value,
payer_name and received_date. -/
theorem hash_deterministic (md5 : String → String) (c : String) (row : Row)
    (r1 r2 : Record)
    (hm : r1.member = r2.member) (hc : r1.category = r2.category)
    (hs : r1.summary = r2.summary) (hv : r1.value = r2.value)
    (hp : r1.payer_name = r2.payer_name) (hd : r1.received_date = r2.received_date) :
    (normalizeRow md5 c row).hash = (normalizeRow md5 c row).hash ∧
    compute_hash md5 r1 = compute_hash md5 r2 :=
  ⟨rfl, by simp [compute_hash, hashInput, hm, hc, hs, hv, hp, hd]⟩

/-- Witness for C5: two records differing only in the non-key field
`party` receive the same digest. -/
theorem hash_deterministic_witness :
    recA.party ≠ recB.party ∧ compute_hash id recA = compute_hash id recB :=
  ⟨by decide,
   (hash_deterministic id "donations" rowA recA recB rfl rfl rfl rfl rfl rfl).2⟩

/-- C6 counterexample: on the row `rowM`, which is missing `value`,
`payer_name` and `donor_name`, the digest input produced by the pipeline
(made visible by instantiating the digest with `id`) carries the string
`"None"` — the stringification of the `None` the record dict holds for a
missing source column — in the missing positions, not the empty-string
placeholders the claim requires. -/
theorem missing_fields_hash_not_empty :
    (normalizeRow id "donations" rowM).hash = "A|donations|gift|None|None|2024-01-01" ∧
    (normalizeRow id "donations" rowM).hash ≠ "A|donations|gift|||2024-01-01" := by
  constructor
  · decide
  · decide

/-- C6 amended: a row missing `value`, `payer_name` and `donor_name` still
normalizes and hashes without error, but each missing identity field
participates in the digest input as the string `"None"` (Python's
`str(None)`), not as the empty string. -/
theorem missing_fields_hash_as_none_string (md5 : String → String) (c : String)
    (row : Row)
    (hv : rowGet row "value" = PyVal.vNone)
    (hp : rowGet row "payer_name" = PyVal.vNone)
    (hd : rowGet row "donor_name" = PyVal.vNone) :
    (normalizeRow md5 c row).hash
      = md5 (String.intercalate "|"
          [pyStr (rowGet row "member"), c, pyStr (rowGet row "summary"),
           "None", "None", pyStr (rowGet row "received_date")]) := by
  simp [normalizeRow, normalizeRecord, compute_hash, hashInput, hv, hp, hd,
    pyOr, truthy, pyStr]

/-- Witness for the amended C6 at the concrete row `rowM`. -/
theorem missing_fields_hash_as_none_string_witness :
    rowGet rowM "value" = PyVal.vNone ∧
    (normalizeRow id "donations" rowM).hash
      = id (String.intercalate "|"
          [pyStr (rowGet rowM "member"), "donations", pyStr (rowGet rowM "summary"),
           "None", "None", pyStr (rowGet rowM "received_date")]) :=
  ⟨by decide,
   missing_fields_hash_as_none_string id "donations" rowM (by decide) (by decide)
     (by decide)⟩

/-- C8 counterexample: on the row `rowP` the primary `payer_name` column is
present (holding the empty string), yet the normalized record's payer field
is the `donor_name` value, because Python's `or` falls back on any falsy
value, not only on an absent column. -/
theorem payer_fallback_on_empty_primary :
    (rowP.lookup "payer_name").isSome = true ∧
    (normalizeRecord "donations" rowP).payer_name ≠ rowGet rowP "payer_name" ∧
    (normalizeRecord "donations" rowP).payer_name = rowGet rowP "donor_name" := by
  decide

/-- C8 amended: the normalized payer field equals the primary `payer_name`
value whenever that value is truthy (a non-empty string), and falls back to
the `donor_name` value exactly when the primary value is absent (`None`)
or falsy (the empty string). -/
theorem payer_name_fallback (c : String) (row : Row) :
    ((rowGet row "payer_name" = PyVal.vNone ∨ rowGet row "payer_name" = PyVal.vStr "") →
      (normalizeRecord c row).payer_name = rowGet row "donor_name") ∧
    (∀ s : String, s ≠ "" → rowGet row "payer_name" = PyVal.vStr s →
      (normalizeRecord c row).payer_name = PyVal.vStr s) := by
  constructor
  · rintro (h | h) <;> simp [normalizeRecord, pyOr, truthy, h]
  · intro s hs h
    simp [normalizeRecord, pyOr, truthy, h, hs]

/-- Witness for the amended C8: fallback on `rowP` (empty primary), primary
kept on `rowA` (non-empty primary). -/
theorem payer_name_fallback_witness :
    (normalizeRecord "donations" rowP).payer_name = rowGet rowP "donor_name" ∧
    (normalizeRecord "donations" rowA).payer_name = PyVal.vStr "X" :=
  ⟨(payer_name_fallback "donations" rowP).1 (Or.inr (by decide)),
   (payer_name_fallback "donations" rowA).2 "X" (by decide) (by decide)⟩

/-- C9: a category whose fetch returned no rows is dropped by
`fetch_all_data` (the run behaves as if the key were not listed), and even
a category entry with an empty dataframe passed to `sync_to_database`
leaves the store and both counters exactly as they would be without it. -/
theorem empty_category_no_effect (md5 : String → String) (now : String)
    (keys : List String) (fetch : String → List Row) (c cname : String)
    (db : DB) (pre post : List (String × List Row))
    (hc : fetch c = []) :
    fetch_all_data keys fetch
      = fetch_all_data (keys.filter (fun k => !(k == c))) fetch ∧
    sync_to_database md5 now (pre ++ (cname, ([] : List Row)) :: post) db
      = sync_to_database md5 now (pre ++ post) db := by
  constructor
  · unfold fetch_all_data
    exact fetch_foldl_skip fetch c hc keys []
  · unfold sync_to_database
    rw [List.foldl_append, List.foldl_cons, List.foldl_append]
    simp [process_earnings_data]

/-- Witness for C9: the `overall` category fetches empty and is dropped;
an explicit empty `overall` entry does not change the sync result. -/
theorem empty_category_no_effect_witness :
    fetchW "overall" = [] ∧
    fetch_all_data ["donations", "overall"] fetchW
      = fetch_all_data (["donations", "overall"].filter (fun k => !(k == "overall"))) fetchW ∧
    sync_to_database id "t1" ([] ++ ("overall", ([] : List Row)) :: [("donations", [rowA])]) emptyDB
      = sync_to_database id "t1" ([] ++ [("donations", [rowA])]) emptyDB := by
  refine ⟨by decide, ?_, ?_⟩
  · exact (empty_category_no_effect id "t1" ["donations", "overall"] fetchW "overall"
      "x" emptyDB [] [] (by decide)).1
  · exact (empty_category_no_effect id "t1" [] fetchW "overall" "overall" emptyDB []
      [("donations", [rowA])] (by decide)).2

end Scraper
